import Mathlib

/-!
Verification development for the changeset-conversion pipeline in
`src/lib/changesets.py` (OPENER-next/OpenStop-stats).

The program is a three-thread pipeline connected by two bounded queues:

* `downloader` fetches the compressed planet file in chunks and pushes them
  onto the first queue (closing the queue in a `finally` block in every case);
* `decompressor` pulls compressed chunks, decompresses them with a streaming
  `bz2.BZ2Decompressor`, splicing in a fresh decompressor instance each time
  the current one reaches its end-of-member marker with unused data left, and
  pushes the decompressed chunks onto the second queue; a decompression error
  shuts both queues down with `immediate=True`, a graceful close of the input
  queue is propagated as a graceful close of the output queue;
* `parser` pulls decompressed chunks, feeds them incrementally to a SAX
  parser whose handler builds one `Changeset` per `changeset` element and, at
  the element's closing boundary, writes one CSV row if the configured editor
  filter is a prefix of the record's `created_by` field.

The bzip2 container format itself is library code (`bz2`), so it is modelled
abstractly: a compressed byte is either a payload byte carrying one character
of decompressed output, an end-of-member marker, or a malformed byte that
makes the decompressor raise.  What is embedded faithfully from the source is
everything the repository itself does with the library: the splice loop, the
queue-closure discipline, the SAX handler, the filter and the row layout.
-/

/-- Decompressed text is modelled as a list of characters. -/
abbrev Str := List Char

/-- A CSV row: one cell per column. -/
abbrev Row := List Str

/-- One byte of the compressed stream, abstracted: `data c` decompresses to
the single character `c`, `eom` is the end-of-member marker of the current
member, and `bad` is a malformed byte on which the decompressor raises. -/
inductive CByte where
  | data (c : Char)
  | eom
  | bad
deriving DecidableEq, Repr

/-- Encoding of one self-terminated compressed member with decompressed
content `p`: the payload bytes followed by the end-of-member marker. -/
def encodeMember (p : Str) : List CByte := p.map CByte.data ++ [CByte.eom]

/-- Reference decoder for a whole compressed stream: concatenates the payload
of every member, ignoring member boundaries, and fails on a malformed byte.
This is the specification against which the incremental splice loop of the
`decompressor` thread is compared. -/
def decodeStream : List CByte → Except Unit Str
  | [] => .ok []
  | CByte.data c :: r => (decodeStream r).map (fun s => c :: s)
  | CByte.eom :: r => decodeStream r
  | CByte.bad :: _ => .error ()

/-- One incremental decompression step over a byte list: returns the output
produced up to (and not beyond) the first end-of-member marker, whether that
marker was reached, and the unused bytes after it.  Models what one
`BZ2Decompressor.decompress` call does with the part of the stream it is
given. -/
def decodeBytes : List CByte → Except Unit (Str × Bool × List CByte)
  | [] => .ok ([], false, [])
  | CByte.data c :: r => (decodeBytes r).map (fun x => (c :: x.1, x.2))
  | CByte.eom :: r => .ok ([], true, r)
  | CByte.bad :: _ => .error ()

/-- The visible state of a `bz2.BZ2Decompressor` instance: the `eof` flag and
the `unused_data` bytes found after the end of the current member. -/
structure BZ2Decompressor where
  eof : Bool
  unused_data : List CByte
deriving DecidableEq, Repr

/-- A freshly constructed `bz2.BZ2Decompressor()`. -/
def BZ2Decompressor.new : BZ2Decompressor := ⟨false, []⟩

/-- The call `d.decompress chunk`: raises if the instance already reached end of
member (`EOFError`), otherwise decodes up to the member's end marker,
recording the leftover bytes in `unused_data`. -/
def BZ2Decompressor.decompress (d : BZ2Decompressor) (chunk : List CByte) :
    Except Unit (Str × BZ2Decompressor) :=
  if d.eof then .error ()
  else (decodeBytes chunk).map (fun x => (x.1, ⟨x.2.1, x.2.2⟩))

theorem decodeBytes_eof_length {l : List CByte} {s : Str} {u : List CByte}
    (h : decodeBytes l = .ok (s, true, u)) : u.length < l.length := by
  induction l generalizing s with
  | nil => simp [decodeBytes] at h
  | cons b r ih =>
    cases b with
    | data c =>
      simp only [decodeBytes] at h
      cases hr : decodeBytes r with
      | error e => rw [hr] at h; simp [Except.map] at h
      | ok x =>
        rw [hr] at h
        simp only [Except.map] at h
        obtain ⟨x1, x2, x3⟩ := x
        cases h
        exact Nat.lt_succ_of_lt (ih hr)
    | eom =>
      simp only [decodeBytes] at h
      cases h
      exact Nat.lt_succ_self _
    | bad => simp [decodeBytes] at h

theorem decompress_measure_lt {u : List CByte} {out : Str}
    {d' : BZ2Decompressor}
    (h : BZ2Decompressor.new.decompress u = .ok (out, d')) :
    (if d'.eof then d'.unused_data.length + 1 else 0) < u.length + 1 := by
  simp only [BZ2Decompressor.decompress, BZ2Decompressor.new] at h
  rw [if_neg (by simp)] at h
  cases hu : decodeBytes u with
  | error e => rw [hu] at h; simp [Except.map] at h
  | ok x =>
    rw [hu] at h
    simp only [Except.map] at h
    obtain ⟨x1, x2, x3⟩ := x
    cases h
    by_cases he : x2 = true
    · subst he
      simp only [if_pos rfl]
      exact Nat.succ_lt_succ (decodeBytes_eof_length hu)
    · simp [he]

/-- The inner `while decompressor.eof:` loop of the `decompressor` thread
(`changesets.py` lines 107-110): while the current instance is at end of
member, feed its `unused_data` to a freshly initialized instance and append
that instance's output to the accumulated content. -/
def pcLoop (content : Str) (d : BZ2Decompressor) :
    Except Unit (Str × BZ2Decompressor) :=
  if d.eof then
    match h : BZ2Decompressor.new.decompress d.unused_data with
    | .error e => .error e
    | .ok (out, d') => pcLoop (content ++ out) d'
  else .ok (content, d)
termination_by (if d.eof then d.unused_data.length + 1 else 0)
decreasing_by
  simp only [*, if_pos]
  exact decompress_measure_lt h

/-- The body of the `decompressor` thread for one input chunk
(`changesets.py` lines 104-110): one `decompress` call on the carried
instance followed by the splice loop. -/
def processChunk (d : BZ2Decompressor) (chunk : List CByte) :
    Except Unit (Str × BZ2Decompressor) :=
  match d.decompress chunk with
  | .error e => .error e
  | .ok (out, d') => pcLoop out d'

/-- The two ways a `queue.Queue` is shut down by the program: `shutdown()`
(graceful: remaining items may still be drained) and
`shutdown(immediate=True)` (abort: unblock everyone at once). -/
inductive ShutdownKind where
  | graceful
  | immediate
deriving DecidableEq, Repr

/-- Observable outcome of one run of the `decompressor` thread: the chunks it
pushed to its output queue, how it closed each of its two queues, and whether
it printed a decompression error. -/
structure DecompResult where
  outputs : List Str
  inClose : ShutdownKind
  outClose : ShutdownKind
  errLogged : Bool
deriving DecidableEq, Repr

/-- The `decompressor` thread (`changesets.py` lines 97-122) run against an
input queue that yields the given chunks in order and then closes
gracefully.  On a decompression error it prints the error and shuts both
queues down immediately; on the graceful end of its input it shuts both
queues down gracefully (the output queue closure being the graceful
end-of-stream signal for the parser). -/
def decompressorRun (d : BZ2Decompressor) : List (List CByte) → DecompResult
  | [] => ⟨[], .graceful, .graceful, false⟩
  | c :: cs =>
    match processChunk d c with
    | .error _ => ⟨[], .immediate, .immediate, true⟩
    | .ok (out, d') =>
      let r := decompressorRun d' cs
      { r with outputs := out :: r.outputs }

/-- Whether an `Except` value is a success. -/
def okBool : Except ε α → Bool
  | .ok _ => true
  | .error _ => false

theorem decodeBytes_err {l : List CByte} {e : Unit}
    (h : decodeBytes l = .error e) : decodeStream l = .error () := by
  induction l with
  | nil => simp [decodeBytes] at h
  | cons b r ih =>
    cases b with
    | data c =>
      simp only [decodeBytes] at h
      cases hr : decodeBytes r with
      | error e' => simp [decodeStream, ih hr, Except.map]
      | ok x => rw [hr] at h; simp [Except.map] at h
    | eom => simp [decodeBytes] at h
    | bad => rfl

theorem decodeBytes_ok_false {l : List CByte} {s : Str} {u : List CByte}
    (h : decodeBytes l = .ok (s, false, u)) :
    u = [] ∧ decodeStream l = .ok s := by
  induction l generalizing s u with
  | nil =>
    simp only [decodeBytes, Except.ok.injEq, Prod.mk.injEq] at h
    obtain ⟨h1, _, h3⟩ := h
    subst h1; subst h3
    exact ⟨rfl, rfl⟩
  | cons b r ih =>
    cases b with
    | data c =>
      simp only [decodeBytes] at h
      cases hr : decodeBytes r with
      | error e' => rw [hr] at h; simp [Except.map] at h
      | ok x =>
        obtain ⟨s', e', u'⟩ := x
        rw [hr] at h
        simp only [Except.map, Except.ok.injEq, Prod.mk.injEq] at h
        obtain ⟨h1, h2, h3⟩ := h
        subst h1; subst h3
        rw [h2] at hr
        obtain ⟨hu, hds⟩ := ih hr
        exact ⟨hu, by simp [decodeStream, hds, Except.map]⟩
    | eom => simp [decodeBytes] at h
    | bad => simp [decodeBytes] at h

theorem decodeBytes_ok_true {l : List CByte} {s : Str} {u : List CByte}
    (h : decodeBytes l = .ok (s, true, u)) :
    decodeStream l = (decodeStream u).map (fun t => s ++ t) := by
  induction l generalizing s u with
  | nil => simp [decodeBytes] at h
  | cons b r ih =>
    cases b with
    | data c =>
      simp only [decodeBytes] at h
      cases hr : decodeBytes r with
      | error e' => rw [hr] at h; simp [Except.map] at h
      | ok x =>
        obtain ⟨s', e', u'⟩ := x
        rw [hr] at h
        simp only [Except.map, Except.ok.injEq, Prod.mk.injEq] at h
        obtain ⟨h1, h2, h3⟩ := h
        subst h1
        rw [h2, h3] at hr
        have hds := ih hr
        simp only [decodeStream, hds]
        cases decodeStream u <;> simp [Except.map]
    | eom =>
      simp only [decodeBytes, Except.ok.injEq, Prod.mk.injEq] at h
      obtain ⟨h1, _, h3⟩ := h
      subst h1
      rw [← h3]
      simp only [decodeStream]
      cases h' : decodeStream r <;> simp [Except.map]
    | bad => simp [decodeBytes] at h

theorem new_decompress_eq (chunk : List CByte) :
    BZ2Decompressor.new.decompress chunk =
      (decodeBytes chunk).map (fun x => (x.1, ⟨x.2.1, x.2.2⟩)) := by
  simp [BZ2Decompressor.decompress, BZ2Decompressor.new]

theorem pcLoop_spec_aux : ∀ (n : Nat) (content : Str) (d : BZ2Decompressor),
    d.unused_data.length < n →
    pcLoop content d =
      (if d.eof then
        (decodeStream d.unused_data).map
          (fun t => (content ++ t, BZ2Decompressor.new))
      else .ok (content, d)) := by
  intro n
  induction n with
  | zero => intro content d hlt; exact absurd hlt (Nat.not_lt_zero _)
  | succ n ih =>
    intro content d hlt
    by_cases hd : d.eof
    · rw [pcLoop]
      rw [if_pos hd, if_pos hd]
      cases hdec : BZ2Decompressor.new.decompress d.unused_data with
      | error e =>
        rw [new_decompress_eq] at hdec
        have hb : decodeBytes d.unused_data = .error e := by
          cases hb' : decodeBytes d.unused_data with
          | error e' => rfl
          | ok x => rw [hb'] at hdec; simp [Except.map] at hdec
        have hds := decodeBytes_err hb
        simp [hds, Except.map]
      | ok x =>
        obtain ⟨out, d'⟩ := x
        show pcLoop (content ++ out) d' = _
        rw [new_decompress_eq] at hdec
        have hb : decodeBytes d.unused_data = .ok (out, d'.eof, d'.unused_data) := by
          cases hb' : decodeBytes d.unused_data with
          | error e' => rw [hb'] at hdec; simp [Except.map] at hdec
          | ok x' =>
            obtain ⟨s', e', u'⟩ := x'
            rw [hb'] at hdec
            simp only [Except.map, Except.ok.injEq, Prod.mk.injEq] at hdec
            obtain ⟨h1, h2⟩ := hdec
            subst h1
            rw [← h2]
        by_cases he : d'.eof
        · rw [he] at hb
          have hds := decodeBytes_ok_true hb
          have hl2 : d'.unused_data.length < d.unused_data.length :=
            decodeBytes_eof_length hb
          have ihr := ih (content ++ out) d'
            (Nat.lt_of_lt_of_le hl2 (Nat.le_of_lt_succ hlt))
          rw [ihr, if_pos he, hds]
          cases decodeStream d'.unused_data <;>
            simp [Except.map, List.append_assoc]
        · have he' : d'.eof = false := by simpa using he
          rw [he'] at hb
          obtain ⟨hu, hds⟩ := decodeBytes_ok_false hb
          rw [pcLoop]
          rw [if_neg he, hds]
          simp only [Except.map]
          have hnew : d' = BZ2Decompressor.new := by
            cases d' with
            | mk e2 u2 =>
              simp only at he' hu
              rw [BZ2Decompressor.new, he', hu]
          rw [hnew]
    · rw [pcLoop]; simp [hd]

theorem pcLoop_spec (content : Str) (d : BZ2Decompressor) :
    pcLoop content d =
      (if d.eof then
        (decodeStream d.unused_data).map
          (fun t => (content ++ t, BZ2Decompressor.new))
      else .ok (content, d)) :=
  pcLoop_spec_aux (d.unused_data.length + 1) content d (Nat.lt_succ_self _)

theorem processChunk_new (chunk : List CByte) :
    processChunk BZ2Decompressor.new chunk =
      (decodeStream chunk).map (fun s => (s, BZ2Decompressor.new)) := by
  unfold processChunk
  rw [new_decompress_eq]
  cases hb : decodeBytes chunk with
  | error e =>
    have := decodeBytes_err hb
    simp [this, Except.map]
  | ok x =>
    obtain ⟨s, e2, u⟩ := x
    simp only [Except.map]
    rw [pcLoop_spec]
    cases e2 with
    | false =>
      obtain ⟨hu, hds⟩ := decodeBytes_ok_false hb
      simp only [hds, Except.map]
      simp [hu, BZ2Decompressor.new]
    | true =>
      have hds := decodeBytes_ok_true hb
      simp only [if_pos rfl, hds]
      cases decodeStream u <;> simp [Except.map]

theorem decodeStream_append (a b : List CByte) :
    decodeStream (a ++ b) =
      (match decodeStream a with
      | .error e => .error e
      | .ok s => (decodeStream b).map (fun t => s ++ t)) := by
  induction a with
  | nil =>
    simp only [List.nil_append, decodeStream]
    cases decodeStream b <;> simp [Except.map]
  | cons x r ih =>
    cases x with
    | data c =>
      simp only [List.cons_append, decodeStream, List.append_eq]
      rw [ih]
      cases decodeStream r with
      | error e => simp [Except.map]
      | ok s => cases decodeStream b <;> simp [Except.map]
    | eom =>
      simp only [List.cons_append, decodeStream]
      exact ih
    | bad => simp [decodeStream]

theorem decodeStream_encode (p : Str) :
    decodeStream (encodeMember p) = .ok p := by
  induction p with
  | nil => rfl
  | cons c p ih =>
    simp only [encodeMember] at ih ⊢
    simp only [List.map_cons, List.cons_append, decodeStream, List.append_eq,
      ih, Except.map]

theorem decodeStream_members (members : List Str) :
    decodeStream (members.map encodeMember).flatten = .ok members.flatten := by
  induction members with
  | nil => rfl
  | cons p ms ih =>
    simp only [List.map_cons, List.flatten_cons]
    rw [decodeStream_append, decodeStream_encode, ih]
    simp [Except.map]

theorem decompressorRun_ok : ∀ (chunks : List (List CByte)) (s : Str),
    decodeStream chunks.flatten = .ok s →
    ∃ outs, decompressorRun BZ2Decompressor.new chunks =
        ⟨outs, .graceful, .graceful, false⟩ ∧ outs.flatten = s := by
  intro chunks
  induction chunks with
  | nil =>
    intro s h
    simp only [List.flatten_nil, decodeStream, Except.ok.injEq] at h
    exact ⟨[], rfl, by simp [h]⟩
  | cons c cs ih =>
    intro s h
    rw [List.flatten_cons, decodeStream_append] at h
    cases hc : decodeStream c with
    | error e => rw [hc] at h; simp at h
    | ok s1 =>
      rw [hc] at h
      simp only [Except.map] at h
      cases hcs : decodeStream cs.flatten with
      | error e => rw [hcs] at h; simp at h
      | ok s2 =>
        rw [hcs] at h
        simp only [Except.ok.injEq] at h
        obtain ⟨outs, hrun, hjoin⟩ := ih s2 hcs
        refine ⟨s1 :: outs, ?_, by simp [hjoin, ← h]⟩
        simp only [decompressorRun, processChunk_new, hc, Except.map, hrun]

theorem decompressorRun_err : ∀ (chunks : List (List CByte)) (e : Unit),
    decodeStream chunks.flatten = .error e →
    (decompressorRun BZ2Decompressor.new chunks).inClose = .immediate ∧
    (decompressorRun BZ2Decompressor.new chunks).outClose = .immediate ∧
    (decompressorRun BZ2Decompressor.new chunks).errLogged = true := by
  intro chunks
  induction chunks with
  | nil => intro e h; simp [decodeStream] at h
  | cons c cs ih =>
    intro e h
    rw [List.flatten_cons, decodeStream_append] at h
    cases hc : decodeStream c with
    | error e1 =>
      simp only [decompressorRun, processChunk_new, hc, Except.map]
      exact ⟨trivial, trivial, trivial⟩
    | ok s1 =>
      rw [hc] at h
      simp only [Except.map] at h
      cases hcs : decodeStream cs.flatten with
      | error e2 =>
        obtain ⟨h1, h2, h3⟩ := ih e2 hcs
        simp only [decompressorRun, processChunk_new, hc, Except.map]
        exact ⟨h1, h2, h3⟩
      | ok s2 => rw [hcs] at h; simp at h

/-- Fuel-indexed variant of the splice loop `pcLoop`: `none` means the loop
would still be running after `fuel` iterations.  Used to express that the
loop terminates within a bound determined by the unused data. -/
def pcLoopFuel : Nat → Str → BZ2Decompressor →
    Option (Except Unit (Str × BZ2Decompressor))
  | 0, _, _ => none
  | fuel + 1, content, d =>
    if d.eof then
      match BZ2Decompressor.new.decompress d.unused_data with
      | .error e => some (.error e)
      | .ok (out, d') => pcLoopFuel fuel (content ++ out) d'
    else some (.ok (content, d))

theorem pcLoopFuel_spec : ∀ (fuel : Nat) (content : Str) (d : BZ2Decompressor),
    (if d.eof then d.unused_data.length + 2 else 1) ≤ fuel →
    pcLoopFuel fuel content d = some (pcLoop content d) := by
  intro fuel
  induction fuel with
  | zero =>
    intro content d hle
    by_cases hd : d.eof <;> simp [hd] at hle
  | succ fuel ih =>
    intro content d hle
    by_cases hd : d.eof
    · rw [pcLoop]
      rw [if_pos hd] at hle ⊢
      simp only [pcLoopFuel, if_pos hd]
      cases hdec : BZ2Decompressor.new.decompress d.unused_data with
      | error e => rfl
      | ok x =>
        obtain ⟨out, d'⟩ := x
        show pcLoopFuel fuel (content ++ out) d' = some (pcLoop (content ++ out) d')
        apply ih
        have hm := decompress_measure_lt hdec
        by_cases he : d'.eof
        · rw [if_pos he] at hm ⊢
          omega
        · rw [if_neg he] at hm ⊢
          omega
    · rw [pcLoop]
      simp [pcLoopFuel, hd]

/-- C10: the inner member-splicing loop of the `decompressor` thread
terminates on every input in a number of iterations bounded by the length of
the decompressor's unused data: run with that much fuel, the fuel-indexed
loop does not run out, and it computes exactly the total function `pcLoop`.
(The underlying reason is that each iteration that re-enters the loop
strictly consumes a non-empty prefix of the remaining unused data.) -/
theorem splice_loop_fuel_bound (content : Str) (d : BZ2Decompressor) :
    pcLoopFuel (d.unused_data.length + 2) content d = some (pcLoop content d) := by
  apply pcLoopFuel_spec
  by_cases hd : d.eof <;> simp [hd]

/-- C1: if the compressed input, however it is cut into chunks, is the
concatenation of validly encoded members, then the `decompressor` thread
succeeds (graceful closure, no error) and the concatenation of the chunks it
pushes downstream is exactly the concatenation of the members' decompressed
contents — member boundaries falling inside a chunk are handled by the
fresh-decompressor splice loop. -/
theorem multi_member_concatenation (members : List Str)
    (chunks : List (List CByte))
    (h : chunks.flatten = (members.map encodeMember).flatten) :
    ∃ outs, decompressorRun BZ2Decompressor.new chunks =
        ⟨outs, .graceful, .graceful, false⟩ ∧
      outs.flatten = members.flatten := by
  apply decompressorRun_ok
  rw [h]
  exact decodeStream_members members

/-- Witness for C1: a single input chunk containing two complete members
(two member boundaries inside one chunk) decompresses to the concatenation
of both members' contents. -/
theorem multi_member_concatenation_witness :
    ∃ outs, decompressorRun BZ2Decompressor.new
        [[CByte.data 'a', CByte.data 'b', CByte.eom, CByte.data 'c',
          CByte.eom]] =
        ⟨outs, .graceful, .graceful, false⟩ ∧
      outs.flatten = ([['a', 'b'], ['c']] : List Str).flatten :=
  multi_member_concatenation [['a', 'b'], ['c']]
    [[CByte.data 'a', CByte.data 'b', CByte.eom, CByte.data 'c', CByte.eom]]
    (by decide)

/-- C6: if the whole input stream decompresses without error, the
`decompressor` thread ends by closing both of its queues gracefully and logs
no error; if decompression of the stream fails, the thread closes both its
input queue and its output queue with the immediate (abort) form of
`shutdown` and logs the decompression error. -/
theorem decompressor_abort_vs_graceful (chunks : List (List CByte)) :
    ((∃ s, decodeStream chunks.flatten = .ok s) →
      decompressorRun BZ2Decompressor.new chunks =
        ⟨(decompressorRun BZ2Decompressor.new chunks).outputs,
          .graceful, .graceful, false⟩) ∧
    ((∃ e, decodeStream chunks.flatten = .error e) →
      (decompressorRun BZ2Decompressor.new chunks).inClose = .immediate ∧
      (decompressorRun BZ2Decompressor.new chunks).outClose = .immediate ∧
      (decompressorRun BZ2Decompressor.new chunks).errLogged = true) := by
  constructor
  · rintro ⟨s, hs⟩
    obtain ⟨outs, hrun, -⟩ := decompressorRun_ok chunks s hs
    rw [hrun]
  · rintro ⟨e, he⟩
    exact decompressorRun_err chunks e he

/-- Witness for C6: a valid one-member chunk leads to graceful closure, a
malformed chunk to immediate closure of both queues with the error logged. -/
theorem decompressor_abort_vs_graceful_witness :
    (decompressorRun BZ2Decompressor.new [[CByte.data 'x', CByte.eom]] =
      ⟨(decompressorRun BZ2Decompressor.new
          [[CByte.data 'x', CByte.eom]]).outputs,
        .graceful, .graceful, false⟩) ∧
    ((decompressorRun BZ2Decompressor.new [[CByte.bad]]).inClose =
        .immediate ∧
      (decompressorRun BZ2Decompressor.new [[CByte.bad]]).outClose =
        .immediate ∧
      (decompressorRun BZ2Decompressor.new [[CByte.bad]]).errLogged = true) :=
  ⟨(decompressor_abort_vs_graceful [[CByte.data 'x', CByte.eom]]).1
      ⟨['x'], by rfl⟩,
    (decompressor_abort_vs_graceful [[CByte.bad]]).2 ⟨(), by rfl⟩⟩

/-- The element name `changeset`. -/
def nChangeset : Str := ['c', 'h', 'a', 'n', 'g', 'e', 's', 'e', 't']

/-- The element name `tag`. -/
def nTag : Str := ['t', 'a', 'g']

/-- The attribute name `k` of a `tag` element. -/
def aK : Str := ['k']

/-- The attribute name `v` of a `tag` element. -/
def aV : Str := ['v']

/-- The attribute name `id`. -/
def aId : Str := ['i', 'd']

/-- The attribute name `created_at`. -/
def aCreatedAt : Str := ['c', 'r', 'e', 'a', 't', 'e', 'd', '_', 'a', 't']

/-- The attribute name `closed_at`. -/
def aClosedAt : Str := ['c', 'l', 'o', 's', 'e', 'd', '_', 'a', 't']

/-- The attribute name `num_changes`. -/
def aNumChanges : Str := ['n', 'u', 'm', '_', 'c', 'h', 'a', 'n', 'g', 'e', 's']

/-- The attribute name `uid`. -/
def aUid : Str := ['u', 'i', 'd']

/-- The attribute name `min_lat`. -/
def aMinLat : Str := ['m', 'i', 'n', '_', 'l', 'a', 't']

/-- The attribute name `max_lat`. -/
def aMaxLat : Str := ['m', 'a', 'x', '_', 'l', 'a', 't']

/-- The attribute name `min_lon`. -/
def aMinLon : Str := ['m', 'i', 'n', '_', 'l', 'o', 'n']

/-- The attribute name `max_lon`. -/
def aMaxLon : Str := ['m', 'a', 'x', '_', 'l', 'o', 'n']

/-- The tag key `comment`. -/
def kComment : Str := ['c', 'o', 'm', 'm', 'e', 'n', 't']

/-- The tag key `created_by`. -/
def kCreatedBy : Str := ['c', 'r', 'e', 'a', 't', 'e', 'd', '_', 'b', 'y']

/-- The tag key `locale`. -/
def kLocale : Str := ['l', 'o', 'c', 'a', 'l', 'e']

/-- One changeset record (`class Changeset`, `changesets.py` lines 16-43).
Fields set from XML attributes hold whatever `attrs.get` returned — `none`
models Python's `None` for an absent attribute; the three tag-sourced fields
start out as the empty string (the class-level default). -/
structure Changeset where
  id : Option Str
  created_at : Option Str
  closed_at : Option Str
  num_changes : Option Str
  uid : Option Str
  min_lat : Option Str
  max_lat : Option Str
  min_lon : Option Str
  max_lon : Option Str
  comment : Option Str
  created_by : Option Str
  locale : Option Str
deriving DecidableEq, Repr

/-- How `csv.writer` renders one cell: a string is written as is, `None`
becomes the empty field. -/
def optCell : Option Str → Str
  | none => []
  | some s => s

/-- Embedding of `Changeset.headerRow` (`changesets.py` lines 30-36): the fixed column
header. -/
def headerRow : Row :=
  [aId, aCreatedAt, aClosedAt, aNumChanges, aUid,
    aMinLat, aMaxLat, aMinLon, aMaxLon,
    kComment, kCreatedBy, kLocale]

/-- Embedding of `Changeset.toRow` (`changesets.py` lines 38-43) composed with the CSV
cell rendering: the fixed-order 12-cell data row for one record. -/
def Changeset.toRow (c : Changeset) : Row :=
  [optCell c.id, optCell c.created_at, optCell c.closed_at,
    optCell c.num_changes, optCell c.uid,
    optCell c.min_lat, optCell c.max_lat, optCell c.min_lon,
    optCell c.max_lon,
    optCell c.comment, optCell c.created_by, optCell c.locale]

/-- Embedding of `ChangesetHandler.startElement` for a `changeset` element
(`changesets.py` lines 52-62): a fresh record whose attribute-sourced fields
are `attrs.get(...)` and whose tag-sourced fields are the class defaults
(empty strings). -/
def mkChangeset (attrs : List (Str × Str)) : Changeset :=
  { id := List.lookup aId attrs
    created_at := List.lookup aCreatedAt attrs
    closed_at := List.lookup aClosedAt attrs
    num_changes := List.lookup aNumChanges attrs
    uid := List.lookup aUid attrs
    min_lat := List.lookup aMinLat attrs
    max_lat := List.lookup aMaxLat attrs
    min_lon := List.lookup aMinLon attrs
    max_lon := List.lookup aMaxLon attrs
    comment := some []
    created_by := some []
    locale := some [] }

/-- Embedding of `ChangesetHandler.startElement` for a `tag` element (`changesets.py`
lines 63-70): copy the `v` attribute into the field selected by the `k`
attribute; any other key — or a missing `k` — changes nothing. -/
def applyTag (c : Changeset) (attrs : List (Str × Str)) : Changeset :=
  match List.lookup aK attrs with
  | some k =>
    if k = kComment then { c with comment := List.lookup aV attrs }
    else if k = kCreatedBy then { c with created_by := List.lookup aV attrs }
    else if k = kLocale then { c with locale := List.lookup aV attrs }
    else c
  | none => c

/-- Where the incremental XML tokenizer is inside the current markup.  This
models the push parser (`xml.sax`, library code) restricted to the
constructs the handler consumes: start tags with double-quoted attributes,
self-closing tags and end tags; character data outside tags is ignored, as
the handler defines no `characters` callback. -/
inductive Mode where
  | text
  | tagOpen
  | inName (n : Str)
  | betweenAttrs (n : Str) (attrs : List (Str × Str))
  | attrName (n : Str) (attrs : List (Str × Str)) (an : Str)
  | attrEq (n : Str) (attrs : List (Str × Str)) (an : Str)
  | attrVal (n : Str) (attrs : List (Str × Str)) (an : Str) (av : Str)
  | closeName (n : Str)
  | selfClose (n : Str) (attrs : List (Str × Str))
deriving DecidableEq, Repr

/-- The whole state of the `parser` thread: tokenizer position, the
handler's `current_changeset`, the data rows written to the CSV sink so far,
and whether an exception was raised while handling an event (which makes the
thread stop feeding). -/
structure PState where
  mode : Mode
  current : Option Changeset
  rows : List Row
  err : Bool
deriving DecidableEq, Repr

/-- The `write` callback (`changesets.py` lines 133-135): at a record's
closing boundary, write its row if the editor filter is a prefix of
`created_by`.  Python raises (`AttributeError`) if the record is absent or
its `created_by` is `None`; that exception is modelled by the error flag. -/
def write (editor_filter : Str) (st : PState) (c : Option Changeset) :
    PState :=
  match c with
  | none => { st with err := true }
  | some c =>
    match c.created_by with
    | none => { st with err := true }
    | some cb =>
      if editor_filter.isPrefixOf cb then
        { st with rows := st.rows ++ [c.toRow] }
      else st

/-- Embedding of `ChangesetHandler.startElement` (`changesets.py` lines 51-70) acting on
the thread state. -/
def startElement (st : PState) (n : Str) (attrs : List (Str × Str)) :
    PState :=
  if n = nChangeset then { st with current := some (mkChangeset attrs) }
  else if n = nTag then
    match st.current with
    | some c => { st with current := some (applyTag c attrs) }
    | none => st
  else st

/-- Embedding of `ChangesetHandler.endElement` (`changesets.py` lines 72-74) acting on
the thread state: at `</changeset>` the callback fires on the current
record (which is not reset afterwards, exactly as in the source). -/
def endElement (editor_filter : Str) (st : PState) (n : Str) : PState :=
  if n = nChangeset then write editor_filter st st.current else st

/-- One character of input pushed through the incremental parser: tokenizer
transition plus handler events at `>` of a start tag, `/>` of a
self-closing tag and `>` of an end tag. -/
def step (editor_filter : Str) (st : PState) (ch : Char) : PState :=
  if st.err then st else
  match st.mode with
  | Mode.text => if ch = '<' then { st with mode := Mode.tagOpen } else st
  | Mode.tagOpen =>
    if ch = '/' then { st with mode := Mode.closeName [] }
    else { st with mode := Mode.inName [ch] }
  | Mode.inName n =>
    if ch = '>' then startElement { st with mode := Mode.text } n []
    else if ch = ' ' then { st with mode := Mode.betweenAttrs n [] }
    else if ch = '/' then { st with mode := Mode.selfClose n [] }
    else { st with mode := Mode.inName (n ++ [ch]) }
  | Mode.betweenAttrs n attrs =>
    if ch = '>' then startElement { st with mode := Mode.text } n attrs
    else if ch = ' ' then st
    else if ch = '/' then { st with mode := Mode.selfClose n attrs }
    else { st with mode := Mode.attrName n attrs [ch] }
  | Mode.attrName n attrs an =>
    if ch = '=' then { st with mode := Mode.attrEq n attrs an }
    else { st with mode := Mode.attrName n attrs (an ++ [ch]) }
  | Mode.attrEq n attrs an =>
    if ch = '\"' then { st with mode := Mode.attrVal n attrs an [] } else st
  | Mode.attrVal n attrs an av =>
    if ch = '\"' then
      { st with mode := Mode.betweenAttrs n (attrs ++ [(an, av)]) }
    else { st with mode := Mode.attrVal n attrs an (av ++ [ch]) }
  | Mode.closeName n =>
    if ch = '>' then endElement editor_filter { st with mode := Mode.text } n
    else { st with mode := Mode.closeName (n ++ [ch]) }
  | Mode.selfClose n attrs =>
    if ch = '>' then
      endElement editor_filter
        (startElement { st with mode := Mode.text } n attrs) n
    else st

/-- The parser state at the start of the run: nothing parsed, no current
record, only the header written. -/
def initState : PState := ⟨Mode.text, none, [], false⟩

/-- Embedding of `parser.feed(content)`: push one decompressed chunk through the
incremental parser. -/
def feed (editor_filter : Str) (st : PState) (s : Str) : PState :=
  s.foldl (step editor_filter) st

/-- The `parser` thread (`changesets.py` lines 125-151) run against an input
queue that yields the given decompressed chunks in order and then closes:
each chunk is fed to the incremental parser in arrival order. -/
def parserRun (editor_filter : Str) (contents : List Str) : PState :=
  contents.foldl (feed editor_filter) initState

/-- The data rows written for one whole decompressed document. -/
def parseRows (editor_filter : Str) (s : Str) : List Row :=
  (feed editor_filter initState s).rows

/-- A character that may appear in an element or attribute name without
disturbing the tokenizer. -/
def PlainChar (c : Char) : Prop :=
  c ≠ '<' ∧ c ≠ '>' ∧ c ≠ '/' ∧ c ≠ '=' ∧ c ≠ ' ' ∧ c ≠ '\"'

instance (c : Char) : Decidable (PlainChar c) := by
  unfold PlainChar; infer_instance

/-- An attribute or tag value that may appear between double quotes. -/
def ValOk (s : Str) : Prop := ∀ c ∈ s, c ≠ '\"'

/-- A well-formed attribute name: non-empty and made of plain characters. -/
def NameOk (s : Str) : Prop := s ≠ [] ∧ ∀ c ∈ s, PlainChar c

/-- Well-formed attribute list of a `changeset` element. -/
def AttrsOk (l : List (Str × Str)) : Prop := ∀ p ∈ l, NameOk p.1 ∧ ValOk p.2

/-- Well-formed `k`/`v` pairs of the nested `tag` elements. -/
def TagsOk (l : List (Str × Str)) : Prop := ∀ p ∈ l, ValOk p.1 ∧ ValOk p.2

/-- One `changeset` element of the source document: its attribute list and
the `k`/`v` pairs of its nested `tag` children, in document order. -/
structure XElem where
  attrs : List (Str × Str)
  tags : List (Str × Str)
deriving DecidableEq, Repr

/-- Well-formed `changeset` element. -/
def ElemOk (e : XElem) : Prop := AttrsOk e.attrs ∧ TagsOk e.tags

/-- Well-formed document: a list of well-formed `changeset` elements. -/
def DocOk (d : List XElem) : Prop := ∀ e ∈ d, ElemOk e

instance (s : Str) : Decidable (ValOk s) := by
  unfold ValOk; infer_instance

instance (s : Str) : Decidable (NameOk s) := by
  unfold NameOk; infer_instance

instance (l : List (Str × Str)) : Decidable (AttrsOk l) := by
  unfold AttrsOk; infer_instance

instance (l : List (Str × Str)) : Decidable (TagsOk l) := by
  unfold TagsOk; infer_instance

instance (e : XElem) : Decidable (ElemOk e) := by
  unfold ElemOk; infer_instance

instance (d : List XElem) : Decidable (DocOk d) := by
  unfold DocOk; infer_instance

/-- Markup for one attribute: ` name="value"`. -/
def renderAttr (p : Str × Str) : Str :=
  [' '] ++ p.1 ++ ['=', '\"'] ++ p.2 ++ ['\"']

/-- Markup for an attribute list. -/
def renderAttrs (l : List (Str × Str)) : Str := (l.map renderAttr).flatten

/-- Markup for one nested annotation: `<tag k="K" v="V"/>`. -/
def renderTag (p : Str × Str) : Str :=
  ['<', 't', 'a', 'g', ' ', 'k', '=', '\"'] ++ p.1 ++
    ['\"', ' ', 'v', '=', '\"'] ++ p.2 ++ ['\"', '/', '>']

/-- Markup for one `changeset` element with its nested `tag` children. -/
def renderElem (e : XElem) : Str :=
  ['<'] ++ nChangeset ++ renderAttrs e.attrs ++ ['>'] ++
    (e.tags.map renderTag).flatten ++ ['<', '/'] ++ nChangeset ++ ['>']

/-- Markup for a whole document wrapped in the planet file's root element. -/
def renderDoc (doc : List XElem) : Str :=
  ['<', 'o', 's', 'm', '>'] ++ (doc.map renderElem).flatten ++
    ['<', '/', 'o', 's', 'm', '>']

/-- Effect of one rendered `tag` element on the current record: exactly the
handler's `tag` branch applied to the attribute list `k="K" v="V"`. -/
def tagStep (c : Changeset) (kv : Str × Str) : Changeset :=
  applyTag c [(aK, kv.1), (aV, kv.2)]

/-- The record the handler has built when it reaches the closing boundary of
a rendered element: the fresh record from the start attributes, mutated by
each nested `tag` in order. -/
def elemChangeset (e : XElem) : Changeset :=
  e.tags.foldl tagStep (mkChangeset e.attrs)

/-- The row a rendered element contributes to the sink. -/
def rowOf (e : XElem) : Row := (elemChangeset e).toRow

theorem feed_append (f : Str) (st : PState) (a b : Str) :
    feed f st (a ++ b) = feed f (feed f st a) b := by
  simp [feed]

theorem feed_cons (f : Str) (st : PState) (c : Char) (s : Str) :
    feed f st (c :: s) = feed f (step f st c) s := rfl

theorem feed_attrVal (f n : Str) (attrs : List (Str × Str)) (an : Str)
    (cur : Option Changeset) (rows : List Row) :
    ∀ (v acc : Str), ValOk v →
    feed f ⟨Mode.attrVal n attrs an acc, cur, rows, false⟩ v =
      ⟨Mode.attrVal n attrs an (acc ++ v), cur, rows, false⟩ := by
  intro v
  induction v with
  | nil => intro acc _; simp [feed]
  | cons c v ih =>
    intro acc hv
    have hc : c ≠ '\"' := hv c (by simp)
    have hstep : step f ⟨Mode.attrVal n attrs an acc, cur, rows, false⟩ c =
        ⟨Mode.attrVal n attrs an (acc ++ [c]), cur, rows, false⟩ := by
      simp [step, hc]
    rw [feed_cons, hstep, ih (acc ++ [c]) (fun x hx => hv x (by simp [hx]))]
    simp

theorem feed_attrName (f n : Str) (attrs : List (Str × Str))
    (cur : Option Changeset) (rows : List Row) :
    ∀ (k an : Str), (∀ c ∈ k, c ≠ '=') →
    feed f ⟨Mode.attrName n attrs an, cur, rows, false⟩ k =
      ⟨Mode.attrName n attrs (an ++ k), cur, rows, false⟩ := by
  intro k
  induction k with
  | nil => intro an _; simp [feed]
  | cons c k ih =>
    intro an hk
    have hc : c ≠ '=' := hk c (by simp)
    have hstep : step f ⟨Mode.attrName n attrs an, cur, rows, false⟩ c =
        ⟨Mode.attrName n attrs (an ++ [c]), cur, rows, false⟩ := by
      simp [step, hc]
    rw [feed_cons, hstep, ih (an ++ [c]) (fun x hx => hk x (by simp [hx]))]
    simp

theorem feed_attrBody (f n : Str) (attrs : List (Str × Str))
    (cur : Option Changeset) (rows : List Row) (k v : Str)
    (hk : NameOk k) (hv : ValOk v) :
    feed f ⟨Mode.betweenAttrs n attrs, cur, rows, false⟩
        (k ++ ['=', '\x22'] ++ v ++ ['\x22']) =
      ⟨Mode.betweenAttrs n (attrs ++ [(k, v)]), cur, rows, false⟩ := by
  obtain ⟨hne, hpl⟩ := hk
  cases k with
  | nil => exact absurd rfl hne
  | cons c k =>
    obtain ⟨h1, h2, h3, h4, h5, h6⟩ := hpl c (by simp)
    have hstep : step f ⟨Mode.betweenAttrs n attrs, cur, rows, false⟩ c =
        ⟨Mode.attrName n attrs [c], cur, rows, false⟩ := by
      simp [step, h2, h5, h3]
    have hform : ((c :: k) ++ ['=', '\x22'] ++ v ++ ['\x22']) =
        c :: (k ++ (['=', '\x22'] ++ (v ++ ['\x22']))) := by simp
    rw [hform, feed_cons, hstep, feed_append]
    rw [feed_attrName f n attrs cur rows k [c]
      (fun x hx => (hpl x (by simp [hx])).2.2.2.1)]
    have hstep2 : feed f
        ⟨Mode.attrName n attrs ([c] ++ k), cur, rows, false⟩
        (['=', '\x22'] ++ (v ++ ['\x22'])) =
        feed f ⟨Mode.attrVal n attrs ([c] ++ k) [], cur, rows, false⟩
          (v ++ ['\x22']) := rfl
    rw [hstep2, feed_append]
    rw [feed_attrVal f n attrs ([c] ++ k) cur rows v [] hv]
    have hstep3 : feed f
        ⟨Mode.attrVal n attrs ([c] ++ k) ([] ++ v), cur, rows, false⟩
        ['\x22'] =
        ⟨Mode.betweenAttrs n (attrs ++ [([c] ++ k, [] ++ v)]), cur, rows,
          false⟩ := by
      simp [feed, step]
    rw [hstep3]
    simp

theorem feed_renderAttrs (f n : Str) (cur : Option Changeset)
    (rows : List Row) :
    ∀ (l attrs : List (Str × Str)), AttrsOk l →
    feed f ⟨Mode.betweenAttrs n attrs, cur, rows, false⟩ (renderAttrs l) =
      ⟨Mode.betweenAttrs n (attrs ++ l), cur, rows, false⟩ := by
  intro l
  induction l with
  | nil => intro attrs _; simp [renderAttrs, feed]
  | cons p l ih =>
    intro attrs hl
    obtain ⟨k, v⟩ := p
    obtain ⟨hk, hv⟩ := hl (k, v) (by simp)
    simp only [renderAttrs, List.map_cons, List.flatten_cons]
    rw [feed_append]
    have hra : feed f ⟨Mode.betweenAttrs n attrs, cur, rows, false⟩
        (renderAttr (k, v)) =
        ⟨Mode.betweenAttrs n (attrs ++ [(k, v)]), cur, rows, false⟩ := by
      have hform : renderAttr (k, v) =
          ' ' :: (k ++ ['=', '\x22'] ++ v ++ ['\x22']) := by
        simp [renderAttr]
      rw [hform, feed_cons]
      rw [show step f ⟨Mode.betweenAttrs n attrs, cur, rows, false⟩ ' ' =
        ⟨Mode.betweenAttrs n attrs, cur, rows, false⟩ from by simp [step]]
      exact feed_attrBody f n attrs cur rows k v hk hv
    rw [hra]
    have ihx := ih (attrs ++ [(k, v)]) (fun p hp => hl p (by simp [hp]))
    unfold renderAttrs at ihx
    rw [ihx]
    simp

theorem feed_startTag (f : Str) (cur : Option Changeset) (rows : List Row)
    (attrs : List (Str × Str)) (h : AttrsOk attrs) :
    feed f ⟨Mode.text, cur, rows, false⟩
        (['<'] ++ nChangeset ++ renderAttrs attrs ++ ['>']) =
      ⟨Mode.text, some (mkChangeset attrs), rows, false⟩ := by
  have hform : (['<'] ++ nChangeset ++ renderAttrs attrs ++ ['>']) =
      (['<'] ++ nChangeset) ++ (renderAttrs attrs ++ ['>']) := by simp
  rw [hform, feed_append]
  rw [show feed f ⟨Mode.text, cur, rows, false⟩ (['<'] ++ nChangeset) =
    ⟨Mode.inName nChangeset, cur, rows, false⟩ from rfl]
  cases attrs with
  | nil =>
    rw [show renderAttrs [] = [] from rfl]
    rw [show feed f ⟨Mode.inName nChangeset, cur, rows, false⟩
      ([] ++ ['>']) =
      startElement ⟨Mode.text, cur, rows, false⟩ nChangeset [] from rfl]
    simp [startElement]
  | cons p l =>
    obtain ⟨k, v⟩ := p
    have hsp : renderAttrs ((k, v) :: l) =
        ' ' :: (k ++ ['=', '\x22'] ++ v ++ ['\x22'] ++ renderAttrs l) := by
      simp [renderAttrs, renderAttr]
    rw [hsp]
    rw [show (' ' :: (k ++ ['=', '\x22'] ++ v ++ ['\x22'] ++ renderAttrs l))
        ++ ['>'] =
      ' ' :: ((k ++ ['=', '\x22'] ++ v ++ ['\x22'] ++ renderAttrs l) ++
        ['>']) from by simp]
    rw [feed_cons]
    rw [show step f ⟨Mode.inName nChangeset, cur, rows, false⟩ ' ' =
      ⟨Mode.betweenAttrs nChangeset [], cur, rows, false⟩ from rfl]
    rw [show ((k ++ ['=', '\x22'] ++ v ++ ['\x22'] ++ renderAttrs l) ++
        ['>']) =
      (k ++ ['=', '\x22'] ++ v ++ ['\x22']) ++ (renderAttrs l ++ ['>'])
      from by simp]
    rw [feed_append]
    obtain ⟨hk, hv⟩ := h (k, v) (by simp)
    rw [feed_attrBody f nChangeset [] cur rows k v hk hv]
    rw [feed_append]
    simp only [List.nil_append]
    rw [feed_renderAttrs f nChangeset cur rows l [(k, v)]
      (fun p hp => h p (by simp [hp]))]
    rw [show feed f
      ⟨Mode.betweenAttrs nChangeset ([(k, v)] ++ l), cur, rows, false⟩
      ['>'] =
      startElement ⟨Mode.text, cur, rows, false⟩ nChangeset ((k, v) :: l)
      from rfl]
    simp [startElement]

theorem tagStep_eq (c : Changeset) (K V : Str) :
    tagStep c (K, V) =
      (if K = kComment then { c with comment := some V }
      else if K = kCreatedBy then { c with created_by := some V }
      else if K = kLocale then { c with locale := some V }
      else c) := rfl

theorem feed_renderTag (f : Str) (c : Changeset) (rows : List Row)
    (K V : Str) (hK : ValOk K) (hV : ValOk V) :
    feed f ⟨Mode.text, some c, rows, false⟩ (renderTag (K, V)) =
      ⟨Mode.text, some (tagStep c (K, V)), rows, false⟩ := by
  have hform : renderTag (K, V) =
      ['<', 't', 'a', 'g', ' ', 'k', '=', '\x22'] ++
        (K ++ (['\x22', ' ', 'v', '=', '\x22'] ++ (V ++ ['\x22', '/', '>'])))
      := by simp [renderTag]
  rw [hform, feed_append]
  rw [show feed f ⟨Mode.text, some c, rows, false⟩
    ['<', 't', 'a', 'g', ' ', 'k', '=', '\x22'] =
    ⟨Mode.attrVal nTag [] aK [], some c, rows, false⟩ from rfl]
  rw [feed_append]
  rw [feed_attrVal f nTag [] aK (some c) rows K [] hK]
  rw [show feed f ⟨Mode.attrVal nTag [] aK ([] ++ K), some c, rows, false⟩
    (['\x22', ' ', 'v', '=', '\x22'] ++ (V ++ ['\x22', '/', '>'])) =
    feed f ⟨Mode.attrVal nTag [(aK, [] ++ K)] aV [], some c, rows, false⟩
      (V ++ ['\x22', '/', '>']) from rfl]
  rw [feed_append]
  rw [feed_attrVal f nTag [(aK, [] ++ K)] aV (some c) rows V []  hV]
  rw [show feed f ⟨Mode.attrVal nTag [(aK, [] ++ K)] aV ([] ++ V), some c,
      rows, false⟩ ['\x22', '/', '>'] =
    ⟨Mode.text, some (applyTag c [(aK, [] ++ K), (aV, [] ++ V)]), rows,
      false⟩ from rfl]
  simp [tagStep]

theorem feed_renderTags (f : Str) (rows : List Row) :
    ∀ (tags : List (Str × Str)) (c : Changeset), TagsOk tags →
    feed f ⟨Mode.text, some c, rows, false⟩ (tags.map renderTag).flatten =
      ⟨Mode.text, some (tags.foldl tagStep c), rows, false⟩ := by
  intro tags
  induction tags with
  | nil => intro c _; simp [feed]
  | cons p l ih =>
    intro c hl
    obtain ⟨K, V⟩ := p
    obtain ⟨hK, hV⟩ := hl (K, V) (by simp)
    simp only [List.map_cons, List.flatten_cons, List.foldl_cons]
    rw [feed_append, feed_renderTag f c rows K V hK hV]
    exact ih (tagStep c (K, V)) (fun p hp => hl p (by simp [hp]))

set_option maxHeartbeats 1000000 in
theorem feed_closeTag (f : Str) (cur : Option Changeset) (rows : List Row) :
    feed f ⟨Mode.text, cur, rows, false⟩ (['<', '/'] ++ nChangeset ++ ['>'])
      = write f ⟨Mode.text, cur, rows, false⟩ cur := rfl

theorem feed_renderElem (f : Str) (cur : Option Changeset) (rows : List Row)
    (e : XElem) (he : ElemOk e) :
    feed f ⟨Mode.text, cur, rows, false⟩ (renderElem e) =
      write f ⟨Mode.text, some (elemChangeset e), rows, false⟩
        (some (elemChangeset e)) := by
  have hform : renderElem e =
      (['<'] ++ nChangeset ++ renderAttrs e.attrs ++ ['>']) ++
        ((e.tags.map renderTag).flatten ++ (['<', '/'] ++ nChangeset ++
          ['>'])) := by
    simp [renderElem]
  rw [hform, feed_append]
  rw [show (['<'] ++ nChangeset ++ renderAttrs e.attrs ++ ['>']) =
    ['<'] ++ nChangeset ++ renderAttrs e.attrs ++ ['>'] from rfl]
  rw [feed_startTag f cur rows e.attrs he.1]
  rw [feed_append]
  rw [feed_renderTags f rows e.tags (mkChangeset e.attrs) he.2]
  rw [show List.foldl tagStep (mkChangeset e.attrs) e.tags =
    elemChangeset e from rfl]
  exact feed_closeTag f (some (elemChangeset e)) rows

theorem write_nil_filter (st : PState) (c : Changeset) (s : Str)
    (h : c.created_by = some s) :
    write [] st (some c) = { st with rows := st.rows ++ [c.toRow] } := by
  simp [write, h, List.isPrefixOf]

theorem tagStep_created_by (c : Changeset) (kv : Str × Str)
    (h : ∃ s, c.created_by = some s) :
    ∃ s, (tagStep c kv).created_by = some s := by
  obtain ⟨K, V⟩ := kv
  rw [tagStep_eq]
  split_ifs <;> first | exact h | exact ⟨V, rfl⟩

theorem foldl_tagStep_created_by :
    ∀ (tags : List (Str × Str)) (c : Changeset),
    (∃ s, c.created_by = some s) →
    ∃ s, (tags.foldl tagStep c).created_by = some s := by
  intro tags
  induction tags with
  | nil => intro c h; exact h
  | cons kv l ih =>
    intro c h
    exact ih (tagStep c kv) (tagStep_created_by c kv h)

theorem elemChangeset_created_by (e : XElem) :
    ∃ s, (elemChangeset e).created_by = some s :=
  foldl_tagStep_created_by e.tags (mkChangeset e.attrs) ⟨[], rfl⟩

theorem feed_renderDoc_elems :
    ∀ (doc : List XElem) (cur : Option Changeset) (rows : List Row),
    DocOk doc →
    ∃ cur', feed [] ⟨Mode.text, cur, rows, false⟩
        (doc.map renderElem).flatten =
      ⟨Mode.text, cur', rows ++ doc.map rowOf, false⟩ := by
  intro doc
  induction doc with
  | nil => intro cur rows _; exact ⟨cur, by simp [feed]⟩
  | cons e l ih =>
    intro cur rows hd
    simp only [List.map_cons, List.flatten_cons]
    rw [feed_append]
    rw [feed_renderElem [] cur rows e (hd e (by simp))]
    obtain ⟨s, hs⟩ := elemChangeset_created_by e
    rw [write_nil_filter _ _ s hs]
    obtain ⟨cur', hrest⟩ := ih (some (elemChangeset e)) (rows ++ [rowOf e])
      (fun x hx => hd x (by simp [hx]))
    refine ⟨cur', ?_⟩
    have hrest' : feed []
        ⟨Mode.text, some (elemChangeset e), rows ++ [rowOf e], false⟩
        (List.map renderElem l).flatten =
        ⟨Mode.text, cur', rows ++ List.map rowOf (e :: l), false⟩ := by
      rw [hrest]; simp
    exact hrest'

theorem parseRows_nil_renderDoc (doc : List XElem) (h : DocOk doc) :
    parseRows [] (renderDoc doc) = doc.map rowOf := by
  unfold parseRows renderDoc
  rw [feed_append, feed_append]
  rw [show feed [] initState ['<', 'o', 's', 'm', '>'] =
    ⟨Mode.text, none, [], false⟩ from rfl]
  obtain ⟨cur', hmid⟩ := feed_renderDoc_elems doc none [] h
  rw [hmid]
  rw [show feed [] ⟨Mode.text, cur', [] ++ doc.map rowOf, false⟩
    ['<', '/', 'o', 's', 'm', '>'] =
    ⟨Mode.text, cur', [] ++ doc.map rowOf, false⟩ from rfl]
  simp

/-- C4: with an empty editor filter, parsing the rendered form of any
well-formed document writes exactly one row per `changeset` element, in
document order (the order of the elements' closing boundaries), and the
number of data rows equals the number of `changeset` elements. -/
theorem empty_filter_emits_each_record_once (doc : List XElem)
    (h : DocOk doc) :
    parseRows [] (renderDoc doc) = doc.map rowOf ∧
    (parseRows [] (renderDoc doc)).length = doc.length :=
  ⟨parseRows_nil_renderDoc doc h,
    by rw [parseRows_nil_renderDoc doc h]; simp⟩

/-- Witness for C4: a concrete two-element document produces exactly its two
rows, in order. -/
theorem empty_filter_emits_each_record_once_witness :
    parseRows []
        (renderDoc
          [⟨[(aId, ['1'])], [(kComment, ['h', 'i'])]⟩,
            ⟨[(aId, ['2'])], []⟩]) =
      ([⟨[(aId, ['1'])], [(kComment, ['h', 'i'])]⟩,
        ⟨[(aId, ['2'])], []⟩] : List XElem).map rowOf ∧
    (parseRows []
        (renderDoc
          [⟨[(aId, ['1'])], [(kComment, ['h', 'i'])]⟩,
            ⟨[(aId, ['2'])], []⟩])).length = 2 :=
  empty_filter_emits_each_record_once
    [⟨[(aId, ['1'])], [(kComment, ['h', 'i'])]⟩, ⟨[(aId, ['2'])], []⟩]
    (by decide)

theorem tagStep_bbox (c : Changeset) (kv : Str × Str) :
    (tagStep c kv).min_lat = c.min_lat ∧
    (tagStep c kv).max_lat = c.max_lat ∧
    (tagStep c kv).min_lon = c.min_lon ∧
    (tagStep c kv).max_lon = c.max_lon := by
  obtain ⟨K, V⟩ := kv
  rw [tagStep_eq]
  split_ifs <;> exact ⟨rfl, rfl, rfl, rfl⟩

theorem foldl_tagStep_bbox : ∀ (tags : List (Str × Str)) (c : Changeset),
    (tags.foldl tagStep c).min_lat = c.min_lat ∧
    (tags.foldl tagStep c).max_lat = c.max_lat ∧
    (tags.foldl tagStep c).min_lon = c.min_lon ∧
    (tags.foldl tagStep c).max_lon = c.max_lon := by
  intro tags
  induction tags with
  | nil => intro c; exact ⟨rfl, rfl, rfl, rfl⟩
  | cons kv l ih =>
    intro c
    obtain ⟨hb1, hb2, hb3, hb4⟩ := tagStep_bbox c kv
    obtain ⟨hc1, hc2, hc3, hc4⟩ := ih (tagStep c kv)
    exact ⟨hc1.trans hb1, hc2.trans hb2, hc3.trans hb3, hc4.trans hb4⟩

/-- C5: a `changeset` element with none of the four bounding-box attributes
still yields a full fixed-order 12-cell row, with the empty string in the
four bounding-box cells — no cell is missing or shifted — and the header
fixes the column order `id, created_at, closed_at, num_changes, uid,
min_lat, max_lat, min_lon, max_lon, comment, created_by, locale`. -/
theorem missing_bbox_yields_empty_columns (attrs tags : List (Str × Str))
    (h : ElemOk ⟨attrs, tags⟩)
    (h1 : List.lookup aMinLat attrs = none)
    (h2 : List.lookup aMaxLat attrs = none)
    (h3 : List.lookup aMinLon attrs = none)
    (h4 : List.lookup aMaxLon attrs = none) :
    parseRows [] (renderDoc [⟨attrs, tags⟩]) =
      [(elemChangeset ⟨attrs, tags⟩).toRow] ∧
    (elemChangeset ⟨attrs, tags⟩).toRow.length = 12 ∧
    (elemChangeset ⟨attrs, tags⟩).toRow[5]? = some [] ∧
    (elemChangeset ⟨attrs, tags⟩).toRow[6]? = some [] ∧
    (elemChangeset ⟨attrs, tags⟩).toRow[7]? = some [] ∧
    (elemChangeset ⟨attrs, tags⟩).toRow[8]? = some [] ∧
    headerRow = [aId, aCreatedAt, aClosedAt, aNumChanges, aUid,
      aMinLat, aMaxLat, aMinLon, aMaxLon, kComment, kCreatedBy, kLocale] := by
  obtain ⟨hb1, hb2, hb3, hb4⟩ :=
    foldl_tagStep_bbox tags (mkChangeset attrs)
  have e1 : (elemChangeset ⟨attrs, tags⟩).min_lat = none := by
    rw [show elemChangeset ⟨attrs, tags⟩ =
      tags.foldl tagStep (mkChangeset attrs) from rfl, hb1]
    exact h1
  have e2 : (elemChangeset ⟨attrs, tags⟩).max_lat = none := by
    rw [show elemChangeset ⟨attrs, tags⟩ =
      tags.foldl tagStep (mkChangeset attrs) from rfl, hb2]
    exact h2
  have e3 : (elemChangeset ⟨attrs, tags⟩).min_lon = none := by
    rw [show elemChangeset ⟨attrs, tags⟩ =
      tags.foldl tagStep (mkChangeset attrs) from rfl, hb3]
    exact h3
  have e4 : (elemChangeset ⟨attrs, tags⟩).max_lon = none := by
    rw [show elemChangeset ⟨attrs, tags⟩ =
      tags.foldl tagStep (mkChangeset attrs) from rfl, hb4]
    exact h4
  refine ⟨?_, rfl, ?_, ?_, ?_, ?_, rfl⟩
  · rw [parseRows_nil_renderDoc [⟨attrs, tags⟩] (by
      intro e he
      simp only [List.mem_singleton] at he
      rw [he]
      exact h)]
    rfl
  · simp [Changeset.toRow, e1, optCell]
  · simp [Changeset.toRow, e2, optCell]
  · simp [Changeset.toRow, e3, optCell]
  · simp [Changeset.toRow, e4, optCell]

/-- Witness for C5: a concrete element carrying only an `id` attribute and a
`created_by` tag. -/
theorem missing_bbox_yields_empty_columns_witness :
    parseRows [] (renderDoc [⟨[(aId, ['9'])], [(kCreatedBy, ['J'])]⟩]) =
      [(elemChangeset ⟨[(aId, ['9'])], [(kCreatedBy, ['J'])]⟩).toRow] ∧
    (elemChangeset ⟨[(aId, ['9'])],
      [(kCreatedBy, ['J'])]⟩).toRow.length = 12 ∧
    (elemChangeset ⟨[(aId, ['9'])], [(kCreatedBy, ['J'])]⟩).toRow[5]? =
      some [] ∧
    (elemChangeset ⟨[(aId, ['9'])], [(kCreatedBy, ['J'])]⟩).toRow[6]? =
      some [] ∧
    (elemChangeset ⟨[(aId, ['9'])], [(kCreatedBy, ['J'])]⟩).toRow[7]? =
      some [] ∧
    (elemChangeset ⟨[(aId, ['9'])], [(kCreatedBy, ['J'])]⟩).toRow[8]? =
      some [] ∧
    headerRow = [aId, aCreatedAt, aClosedAt, aNumChanges, aUid,
      aMinLat, aMaxLat, aMinLon, aMaxLon, kComment, kCreatedBy, kLocale] :=
  missing_bbox_yields_empty_columns [(aId, ['9'])] [(kCreatedBy, ['J'])]
    (by decide) (by decide) (by decide) (by decide) (by decide)

/-- The concrete editor filter `OpenStop`. -/
def fOpenStop : Str := ['O', 'p', 'e', 'n', 'S', 't', 'o', 'p']

set_option maxRecDepth 4096 in
/-- C3: the editor filter is a plain prefix match against the completed
record's `created_by` field, applied when the record's closing boundary is
seen: with filter `OpenStop`, a record whose `created_by` is
`OpenStopEditor/1.0` is written, one whose `created_by` is `JOSM` is not,
and one with no `created_by` tag at all (field left as the empty string) is
not; with the empty filter, the `write` callback emits every completed
record whose `created_by` is a string. -/
theorem editor_filter_prefix_match :
    parseRows fOpenStop
        (renderDoc [⟨[(aId, ['1'])],
          [(kCreatedBy, ['O', 'p', 'e', 'n', 'S', 't', 'o', 'p', 'E', 'd',
            'i', 't', 'o', 'r', '/', '1', '.', '0'])]⟩]) =
      [[['1'], [], [], [], [], [], [], [], [], [],
        ['O', 'p', 'e', 'n', 'S', 't', 'o', 'p', 'E', 'd', 'i', 't', 'o',
          'r', '/', '1', '.', '0'], []]] ∧
    parseRows fOpenStop
        (renderDoc [⟨[(aId, ['2'])],
          [(kCreatedBy, ['J', 'O', 'S', 'M'])]⟩]) = [] ∧
    parseRows fOpenStop (renderDoc [⟨[(aId, ['3'])], []⟩]) = [] ∧
    (∀ (st : PState) (c : Changeset) (s : Str), c.created_by = some s →
      write [] st (some c) = { st with rows := st.rows ++ [c.toRow] }) :=
  ⟨by decide, by decide, by decide, write_nil_filter⟩

/-- Witness for C3's universal clause: the empty filter emits a record whose
`created_by` is the empty string. -/
theorem editor_filter_prefix_match_witness :
    write [] initState (some (mkChangeset [])) =
      { initState with
        rows := initState.rows ++ [(mkChangeset []).toRow] } :=
  editor_filter_prefix_match.2.2.2 initState (mkChangeset []) [] rfl

theorem feed_flatten (f : Str) : ∀ (l : List Str) (st : PState),
    feed f st l.flatten = l.foldl (feed f) st := by
  intro l
  induction l with
  | nil => intro st; rfl
  | cons a l ih =>
    intro st
    rw [List.flatten_cons, feed_append, List.foldl_cons, ih]

/-- Rows written to the CSV sink by the whole pipeline (decompressor stage
followed by parser stage) for a given chunking of the compressed input: the
parser feeds, in order, every decompressed chunk the decompressor pushed
before stopping. -/
def pipelineRows (editor_filter : Str) (chunks : List (List CByte)) :
    List Row :=
  (parserRun editor_filter
    (decompressorRun BZ2Decompressor.new chunks).outputs).rows

/-- A compressed member whose content is one rendered changeset element. -/
def memberOne : List CByte := encodeMember (renderElem ⟨[(aId, ['1'])], []⟩)

set_option maxRecDepth 8192 in
/-- Counterexample to C2 as stated: the same malformed compressed stream,
cut at two different chunk boundaries, yields different row sets — with the
member and the malformed byte in one chunk the decompression error occurs
before anything is pushed downstream and no row is written, while with the
malformed byte in its own chunk the first member's rows are written before
the failure. -/
theorem chunking_affects_rows_on_malformed_input :
    ([memberOne ++ [CByte.bad]] : List (List CByte)).flatten =
      ([memberOne, [CByte.bad]] : List (List CByte)).flatten ∧
    pipelineRows [] [memberOne ++ [CByte.bad]] ≠
      pipelineRows [] [memberOne, [CByte.bad]] := by
  refine ⟨by simp, ?_⟩
  have hdA : decodeStream (memberOne ++ [CByte.bad]) = .error () := by rfl
  have hdB : decodeStream memberOne =
      .ok (renderElem ⟨[(aId, ['1'])], []⟩) := by rfl
  have hdC : decodeStream [CByte.bad] = .error () := rfl
  have hA : decompressorRun BZ2Decompressor.new
      [memberOne ++ [CByte.bad]] = ⟨[], .immediate, .immediate, true⟩ := by
    simp only [decompressorRun, processChunk_new, hdA, Except.map]
  have hB : decompressorRun BZ2Decompressor.new [memberOne, [CByte.bad]] =
      ⟨[renderElem ⟨[(aId, ['1'])], []⟩], .immediate, .immediate,
        true⟩ := by
    simp only [decompressorRun, processChunk_new, hdA, hdB, hdC, Except.map]
  unfold pipelineRows
  rw [hA, hB]
  decide

/-- C2 (amended): for every compressed input on which decompression
succeeds, any two chunkings of the same byte stream make the pipeline emit
the same rows in the same order; chunk boundaries never affect the set or
order of emitted rows.  (As stated over *every* input byte sequence the
claim fails: on malformed input the rows already emitted before the
decompression error depend on where the chunk boundaries fall.) -/
theorem chunk_boundary_invariance_on_valid_input (f : Str)
    (chunks1 chunks2 : List (List CByte))
    (hjoin : chunks1.flatten = chunks2.flatten)
    (hok : ∃ s, decodeStream chunks1.flatten = .ok s) :
    pipelineRows f chunks1 = pipelineRows f chunks2 := by
  obtain ⟨s, hs⟩ := hok
  obtain ⟨o1, h1, hj1⟩ := decompressorRun_ok chunks1 s hs
  obtain ⟨o2, h2, hj2⟩ := decompressorRun_ok chunks2 s (by
    rw [← hjoin]; exact hs)
  unfold pipelineRows
  rw [h1, h2]
  show (parserRun f o1).rows = (parserRun f o2).rows
  unfold parserRun
  rw [← feed_flatten, ← feed_flatten, hj1, hj2]

/-- Witness for C2 (amended): two chunkings of the same valid one-member
stream produce the same rows. -/
theorem chunk_boundary_invariance_on_valid_input_witness :
    pipelineRows [] [[CByte.data 'a', CByte.eom]] =
      pipelineRows [] [[CByte.data 'a'], [CByte.eom]] :=
  chunk_boundary_invariance_on_valid_input []
    [[CByte.data 'a', CByte.eom]] [[CByte.data 'a'], [CByte.eom]]
    (by rfl) ⟨['a'], by rfl⟩

/-- One iteration outcome in the downloader's
`for chunk in response.iter_content(...)` loop: the transport yields
another chunk, raises a transport error, or the queue push raises
`ShutDown` because downstream aborted the queue. -/
inductive FetchStep where
  | yield (c : List CByte)
  | raiseTransport
  | raiseShutDown
deriving DecidableEq, Repr

/-- Observable outcome of the `downloader` thread: the chunks it pushed,
whether a download error was printed, and whether the output queue was
closed. -/
structure FetchResult where
  pushed : List (List CByte)
  errLogged : Bool
  closed : Bool
deriving DecidableEq, Repr

/-- The downloader's fetch loop (`changesets.py` lines 80-88 with the
handlers of lines 89-92): push yielded chunks until the source ends; a
transport error is caught by `except Exception` and printed; a `ShutDown`
raised by the push is caught and not printed. -/
def downloaderLoop : List FetchStep → List (List CByte) × Bool
  | [] => ([], false)
  | FetchStep.yield c :: es =>
    let r := downloaderLoop es
    (c :: r.1, r.2)
  | FetchStep.raiseTransport :: _ => ([], true)
  | FetchStep.raiseShutDown :: _ => ([], false)

/-- The `downloader` thread (`changesets.py` lines 77-94): the fetch loop
followed by the `finally: q.shutdown()` that closes the output queue no
matter how the loop ended. -/
def downloader (events : List FetchStep) : FetchResult :=
  let r := downloaderLoop events
  ⟨r.1, r.2, true⟩

/-- Model of `response.iter_content(chunk_size=n)` (library code): cut the
response body into consecutive pieces of at most `n` bytes. -/
def chunksOf (n : Nat) (l : List CByte) : List (List CByte) :=
  if h : l = [] ∨ n = 0 then [] else l.take n :: chunksOf n (l.drop n)
termination_by l.length
decreasing_by
  push_neg at h
  rw [List.length_drop]
  have h1 : l.length ≠ 0 := fun h0 => h.1 (List.length_eq_zero.mp h0)
  omega

/-- The configuration the `__main__` block assembles (`changesets.py` lines
154-168): source URL and editor filter from the options, and the queue
capacity `queue_size`, a local constant. -/
structure Config where
  source_url : Str
  editor_filter : Str
  queue_size : Nat
deriving DecidableEq, Repr

/-- The defaults of the `__main__` block: the planet changeset dump URL, an
empty editor filter, and `queue_size = 10`. -/
def defaultConfig : Config :=
  ⟨['h', 't', 't', 'p', 's', ':', '/', '/', 'p', 'l', 'a', 'n', 'e',
      't', '.', 'o', 'p', 'e', 'n', 's', 't', 'r', 'e', 'e', 't',
      'm', 'a', 'p', '.', 'o', 'r', 'g', '/', 'p', 'l', 'a', 'n',
      'e', 't', '/', 'c', 'h', 'a', 'n', 'g', 'e', 's', 'e', 't',
      's', '-', 'l', 'a', 't', 'e', 's', 't', '.', 'o', 's', 'm',
      '.', 'b', 'z', '2'],
    [], 10⟩

/-- The option loop of `__main__` (`changesets.py` lines 160-164): `-s` or
`--source` sets the source URL, `-e` or `--editor` sets the editor filter;
nothing else changes the configuration. -/
def applyOpt (cfg : Config) (p : Str × Str) : Config :=
  if p.1 = ['-', 's'] ∨ p.1 = ['-', '-', 's', 'o', 'u', 'r', 'c', 'e'] then
    { cfg with source_url := p.2 }
  else if p.1 = ['-', 'e'] ∨
      p.1 = ['-', '-', 'e', 'd', 'i', 't', 'o', 'r'] then
    { cfg with editor_filter := p.2 }
  else cfg

/-- All options applied in order. -/
def applyOpts (cfg : Config) (l : List (Str × Str)) : Config :=
  l.foldl applyOpt cfg

/-- The short-option fragment of `getopt.getopt(argv, 's:e:', ...)`
relevant here: `-s` and `-e` each take the following argument as value; any
other `-`-option is rejected with a `GetoptError`; the first argument that
is not an option ends option parsing.  (Attached values like `-sURL` are
accepted by the library but never used by this program's documentation and
are outside this fragment.) -/
def getoptShort : List Str → Except Unit (List (Str × Str))
  | [] => .ok []
  | [a] =>
    if a = ['-', 's'] ∨ a = ['-', 'e'] then .error ()
    else if a.head? = some '-' then .error ()
    else .ok []
  | a :: v :: rest =>
    if a = ['-', 's'] ∨ a = ['-', 'e'] then
      (getoptShort rest).map (fun l => (a, v) :: l)
    else if a.head? = some '-' then .error ()
    else .ok []

/-- Observable outcome of one whole run of the program. -/
structure MainResult where
  sinkRows : List Row
  decompErrLogged : Bool
  downloadErrLogged : Bool
  donePrinted : Bool
  exitCode : Nat
deriving DecidableEq, Repr

/-- The orchestrator (`changesets.py` lines 154-193) as a sequential model
of the three threads over the queues' FIFO behaviour: the downloader's
pushed chunks feed the decompressor; the decompressed chunks feed the
parser, which pops all of them when the content queue closes gracefully but
only the first `drain` of them when the queue is aborted (an immediate
shutdown discards items still queued).  The main thread joins the three
threads and prints `Done` unconditionally; no exit status is ever set, so
the process exits with code 0. -/
def mainRun (events : List FetchStep) (editor_filter : Str) (drain : Nat) :
    MainResult :=
  let fr := downloader events
  let dr := decompressorRun BZ2Decompressor.new fr.pushed
  let consumed := if dr.errLogged then dr.outputs.take drain
    else dr.outputs
  ⟨(parserRun editor_filter consumed).rows, dr.errLogged, fr.errLogged,
    true, 0⟩

theorem downloaderLoop_yields : ∀ (cs : List (List CByte))
    (tail : List FetchStep),
    downloaderLoop (cs.map FetchStep.yield ++ tail) =
      (cs ++ (downloaderLoop tail).1, (downloaderLoop tail).2) := by
  intro cs tail
  induction cs with
  | nil => simp
  | cons c cs ih =>
    simp only [List.map_cons, List.cons_append, downloaderLoop,
      List.append_eq, ih]

/-- C7: the `downloader` thread closes its output queue in every case: on
clean end of source it has pushed every chunk and logged nothing; on a
transport failure mid-stream the failure is logged (and is not fatal — the
thread still reaches its queue closure) and the chunks fetched before the
failure were pushed; on a downstream abort nothing is logged and the queue
is still closed. -/
theorem downloader_always_closes_queue (events : List FetchStep)
    (cs : List (List CByte)) (rest : List FetchStep) :
    (downloader events).closed = true ∧
    downloader (cs.map FetchStep.yield) = ⟨cs, false, true⟩ ∧
    downloader (cs.map FetchStep.yield ++
      FetchStep.raiseTransport :: rest) = ⟨cs, true, true⟩ ∧
    downloader (cs.map FetchStep.yield ++
      FetchStep.raiseShutDown :: rest) = ⟨cs, false, true⟩ := by
  refine ⟨rfl, ?_, ?_, ?_⟩
  · unfold downloader
    rw [show (cs.map FetchStep.yield) =
      (cs.map FetchStep.yield) ++ [] from by simp, downloaderLoop_yields]
    simp [downloaderLoop]
  · unfold downloader
    rw [downloaderLoop_yields]
    simp [downloaderLoop]
  · unfold downloader
    rw [downloaderLoop_yields]
    simp [downloaderLoop]

theorem applyOpt_queue_size (cfg : Config) (p : Str × Str) :
    (applyOpt cfg p).queue_size = cfg.queue_size := by
  unfold applyOpt
  split_ifs <;> rfl

theorem applyOpts_queue_size : ∀ (l : List (Str × Str)) (cfg : Config),
    (applyOpts cfg l).queue_size = cfg.queue_size := by
  intro l
  induction l with
  | nil => intro cfg; rfl
  | cons p l ih =>
    intro cfg
    unfold applyOpts at ih ⊢
    rw [List.foldl_cons, ih, applyOpt_queue_size]

theorem chunksOf_length_le (n : Nat) :
    ∀ (m : Nat) (l : List CByte), l.length ≤ m →
    ∀ c ∈ chunksOf n l, c.length ≤ n := by
  intro m
  induction m with
  | zero =>
    intro l hl c hc
    have hnil : l = [] := List.length_eq_zero.mp (Nat.le_zero.mp hl)
    rw [chunksOf, dif_pos (Or.inl hnil)] at hc
    simp at hc
  | succ m ih =>
    intro l hl c hc
    rw [chunksOf] at hc
    by_cases hcond : l = [] ∨ n = 0
    · rw [dif_pos hcond] at hc; simp at hc
    · rw [dif_neg hcond] at hc
      push_neg at hcond
      simp only [List.mem_cons] at hc
      rcases hc with rfl | hc
      · exact List.length_take_le n l
      · refine ih (l.drop n) ?_ c hc
        have hln : l.length ≠ 0 :=
          fun h0 => hcond.1 (List.length_eq_zero.mp h0)
        have hd := List.length_drop n l
        have hn : n ≠ 0 := hcond.2
        omega

/-- Counterexample to C9 as stated: chunk size and queue depth are not
configuration inputs supplied by the CLI layer.  The option parser accepts
only `-s`/`--source` and `-e`/`--editor`: an attempted chunk-size or
queue-depth option is rejected, and the queue capacity remains 10 whatever
recognized options are supplied. -/
theorem chunk_and_depth_not_cli_configurable :
    getoptShort [['-', 'c'], ['5', '1', '2']] = .error () ∧
    getoptShort [['-', 'q'], ['5']] = .error () ∧
    (applyOpts defaultConfig
      [(['-', 's'], ['u']), (['-', 'e'], ['f'])]).queue_size = 10 ∧
    (applyOpts defaultConfig []).queue_size = 10 :=
  ⟨rfl, rfl, rfl, rfl⟩

/-- C9 (amended): the fetcher's chunk size is the constant 1 MiB (1048576)
hard-coded at its `iter_content` call and the queue depth is the constant
`queue_size = 10` in the orchestrator; neither is CLI-configurable, and the
bounds hold — every chunk cut from the response body is at most 1048576
bytes, and the configuration always carries queue capacity 10. -/
theorem fixed_chunk_bound_and_queue_depth (opts : List (Str × Str))
    (body : List CByte) :
    (applyOpts defaultConfig opts).queue_size = 10 ∧
    ∀ c ∈ chunksOf 1048576 body, c.length ≤ 1048576 :=
  ⟨applyOpts_queue_size opts defaultConfig,
    chunksOf_length_le 1048576 body.length body (Nat.le_refl _)⟩

/-- Witness for C9 (amended), at a one-byte body whose single chunk is that
byte. -/
theorem fixed_chunk_bound_and_queue_depth_witness :
    (applyOpts defaultConfig []).queue_size = 10 ∧
    ([CByte.eom] : List CByte).length ≤ 1048576 := by
  have hch : chunksOf 1048576 [CByte.eom] = [[CByte.eom]] := by
    rw [chunksOf, dif_neg (by simp)]
    rw [List.take_of_length_le (by simp), List.drop_eq_nil_of_le (by simp)]
    rw [chunksOf, dif_pos (Or.inl rfl)]
  exact ⟨(fixed_chunk_bound_and_queue_depth [] [CByte.eom]).1,
    (fixed_chunk_bound_and_queue_depth [] [CByte.eom]).2 [CByte.eom]
      (by rw [hch]; simp)⟩

set_option maxRecDepth 8192 in
/-- Counterexample to C8 as stated: with a malformed compressed member
injected mid-stream the run does stop with the decompression failure logged
and the row of the changeset fully processed before the failure still in
the sink — but its termination status is indistinguishable from success:
no exit status is ever set (exit code 0) and `Done` is printed; there is no
non-zero-equivalent status. -/
theorem failed_run_reports_success_status :
    mainRun [FetchStep.yield memberOne, FetchStep.yield [CByte.bad]] [] 1 =
      ⟨[[['1'], [], [], [], [], [], [], [], [], [], [], []]],
        true, false, true, 0⟩ := by
  have hdB : decodeStream memberOne =
      .ok (renderElem ⟨[(aId, ['1'])], []⟩) := by rfl
  have hdC : decodeStream [CByte.bad] = .error () := rfl
  have hB : decompressorRun BZ2Decompressor.new [memberOne, [CByte.bad]] =
      ⟨[renderElem ⟨[(aId, ['1'])], []⟩], .immediate, .immediate,
        true⟩ := by
    simp only [decompressorRun, processChunk_new, hdB, hdC, Except.map]
  unfold mainRun
  simp only [show downloader [FetchStep.yield memberOne,
    FetchStep.yield [CByte.bad]] =
    ⟨[memberOne, [CByte.bad]], false, true⟩ from rfl, hB]
  rfl

/-- C8 (amended): every run — failing or not — terminates with exit code 0
and `Done` printed; a decompression failure is reported through the
decompressor's logged diagnostic, and the sink then still holds exactly the
rows parsed from the decompressed chunks the parser received before the
abort (no rollback). -/
theorem failure_diagnostic_and_sink_preservation (events : List FetchStep)
    (f : Str) (drain : Nat) :
    (mainRun events f drain).exitCode = 0 ∧
    (mainRun events f drain).donePrinted = true ∧
    (mainRun events f drain).decompErrLogged =
      (decompressorRun BZ2Decompressor.new
        (downloader events).pushed).errLogged ∧
    ((mainRun events f drain).decompErrLogged = true →
      (mainRun events f drain).sinkRows =
        (parserRun f ((decompressorRun BZ2Decompressor.new
          (downloader events).pushed).outputs.take drain)).rows) := by
  refine ⟨rfl, rfl, rfl, fun h => ?_⟩
  have h' : (decompressorRun BZ2Decompressor.new
      (downloader events).pushed).errLogged = true := h
  show (parserRun f
      (if (decompressorRun BZ2Decompressor.new
          (downloader events).pushed).errLogged = true then
        (decompressorRun BZ2Decompressor.new
          (downloader events).pushed).outputs.take drain
      else (decompressorRun BZ2Decompressor.new
        (downloader events).pushed).outputs)).rows = _
  rw [h']
  simp

/-- Witness for C8 (amended): at the malformed-member run, the sink holds
exactly the rows of the drained decompressed chunks. -/
theorem failure_diagnostic_and_sink_preservation_witness :
    (mainRun [FetchStep.yield memberOne, FetchStep.yield [CByte.bad]] []
        1).sinkRows =
      (parserRun [] ((decompressorRun BZ2Decompressor.new
        (downloader [FetchStep.yield memberOne,
          FetchStep.yield [CByte.bad]]).pushed).outputs.take 1)).rows := by
  apply (failure_diagnostic_and_sink_preservation
    [FetchStep.yield memberOne, FetchStep.yield [CByte.bad]] [] 1).2.2.2
  have hdB : decodeStream memberOne =
      .ok (renderElem ⟨[(aId, ['1'])], []⟩) := by rfl
  have hdC : decodeStream [CByte.bad] = .error () := rfl
  have hB : decompressorRun BZ2Decompressor.new [memberOne, [CByte.bad]] =
      ⟨[renderElem ⟨[(aId, ['1'])], []⟩], .immediate, .immediate,
        true⟩ := by
    simp only [decompressorRun, processChunk_new, hdB, hdC, Except.map]
  show (decompressorRun BZ2Decompressor.new
    (downloader [FetchStep.yield memberOne,
      FetchStep.yield [CByte.bad]]).pushed).errLogged = true
  rw [show (downloader [FetchStep.yield memberOne,
    FetchStep.yield [CByte.bad]]).pushed =
    [memberOne, [CByte.bad]] from rfl, hB]
